import Mathlib

/-!
Verification of the formatting-preservation core of the `c12-parser`
repository (src/format.rs, src/json.rs, src/json5.rs, src/jsonc.rs,
src/toml_format.rs, src/yaml_format.rs).

Texts are modelled as `List Char` (a Rust `&str` is a sequence of Unicode
scalar values; `Char` in Lean is exactly a Unicode scalar value).  The
external format libraries (serde_json, json5, jsonc-parser, toml,
serde_yaml) are black boxes to this repository; where a wrapper feeds
their output into the core, that output is a parameter of the model.
-/

namespace C12

/-- Rust `char::is_whitespace`: the Unicode `White_Space` property,
which is what the regex class `\s` and `str::trim_start` use. -/
def rustIsWhitespace (c : Char) : Bool :=
  let n := c.toNat
  decide ((9 ≤ n ∧ n ≤ 13) ∨ n = 32 ∨ n = 0x85 ∨ n = 0xA0 ∨ n = 0x1680 ∨
    (0x2000 ≤ n ∧ n ≤ 0x200A) ∨ n = 0x2028 ∨ n = 0x2029 ∨ n = 0x202F ∨
    n = 0x205F ∨ n = 0x3000)

/-- Rust `str::len` of a one-character string: the UTF-8 byte width of the
scalar value (same case split as `core::char::len_utf8`). -/
def charUtf8Len (c : Char) : Nat :=
  if c.toNat ≤ 0x7F then 1
  else if c.toNat ≤ 0x7FF then 2
  else if c.toNat ≤ 0xFFFF then 3
  else 4

/-- Rust `str::len` (UTF-8 byte count) of a text. -/
def utf8Len (l : List Char) : Nat := (l.map charUtf8Len).sum

/-- `FormatOptions` from src/format.rs (field `indent` is a `usize`). -/
structure FormatOptions where
  indent : Option Nat
  preserve_indentation : Bool
  preserve_whitespace : Bool
  sample_size : Nat

/-- `FormatOptions::default()` from src/format.rs. -/
def formatOptionsDefault : FormatOptions :=
  { indent := none
    preserve_indentation := true
    preserve_whitespace := true
    sample_size := 1024 }

/-- `FormatInfo` from src/format.rs. -/
structure FormatInfo where
  sample : Option (List Char)
  whitespace_start : List Char
  whitespace_end : List Char

/-- `detect_format` from src/format.rs.  The sample is the first
`sample_size` characters (`text.chars().take(..)`).  The regex
`^(\s+)` captures the maximal leading run of whitespace characters,
modelled as `takeWhile`; the regex `(\s+)$` captures the maximal
trailing run (leftmost match of a greedy `\s+` anchored at the end),
modelled as `takeWhile` on the reversed text. -/
def detect_format (text : List Char) (opts : FormatOptions) : FormatInfo :=
  let sample :=
    if opts.indent.isNone && opts.preserve_indentation then
      some (text.take opts.sample_size)
    else
      none
  let whitespace_start :=
    if opts.preserve_whitespace then text.takeWhile rustIsWhitespace else []
  let whitespace_end :=
    if opts.preserve_whitespace then
      (text.reverse.takeWhile rustIsWhitespace).reverse
    else
      []
  { sample := sample
    whitespace_start := whitespace_start
    whitespace_end := whitespace_end }

/-- Rust `str::split('\n')`: always at least one (possibly empty) part. -/
def splitOnNl : List Char → List (List Char)
  | [] => [[]]
  | c :: cs =>
    if c = '\n' then [] :: splitOnNl cs
    else
      match splitOnNl cs with
      | [] => [[c]]
      | l :: ls => (c :: l) :: ls

/-- Strip one trailing carriage return from a line that was terminated
by a line feed (the `\r\n` case of Rust `str::lines`). -/
def stripCr (l : List Char) : List Char :=
  if l.getLast? = some '\r' then l.dropLast else l

/-- Rust `str::lines`: split at `'\n'`, drop the final empty piece when
the text ends with `'\n'`, and strip a `'\r'` from the end of each
`'\n'`-terminated line.  A last line without a terminator keeps a bare
trailing `'\r'`. -/
def rustLines (s : List Char) : List (List Char) :=
  let parts := splitOnNl s
  match parts.getLast? with
  | some [] => parts.dropLast.map stripCr
  | some last => parts.dropLast.map stripCr ++ [last]
  | none => []

/-- The `for line in sample.lines()` loop of `compute_indent` in
src/format.rs: skip lines that are empty after `trim_start()`, and
return `line.len() - trimmed.len()` (a UTF-8 byte count) for the first
line where that difference is positive; `2` when the loop falls
through. -/
def computeIndentLoop : List (List Char) → Nat
  | [] => 2
  | line :: rest =>
    let trimmed := line.dropWhile rustIsWhitespace
    if trimmed.isEmpty then computeIndentLoop rest
    else
      let indent_len := utf8Len line - utf8Len trimmed
      if 0 < indent_len then indent_len else computeIndentLoop rest

/-- `compute_indent` from src/format.rs. -/
def compute_indent (info : FormatInfo) (opts : FormatOptions) : Nat :=
  match opts.indent with
  | some explicit => explicit
  | none =>
    match info.sample with
    | some sample => computeIndentLoop (rustLines sample)
    | none => 2

/-- `Formatted<T>` from src/format.rs. -/
structure Formatted (T : Type) where
  value : T
  format : FormatInfo

/-- `Formatted::new` from src/format.rs. -/
def Formatted.new {T : Type} (text : List Char) (value : T)
    (opts : FormatOptions) : Formatted T :=
  { value := value, format := detect_format text opts }

/-- `stringify_json` from src/json.rs, with the output of the external
encoder `serde_json::to_string_pretty` passed in as `body`: each line of
the body is kept verbatim when empty, otherwise trimmed of its own
leading whitespace and prefixed with `indent` spaces; the lines are
rejoined with `'\n'` and wrapped in the captured outer whitespace. -/
def stringify_json {T : Type} (formatted : Formatted T)
    (options : Option FormatOptions) (body : List Char) : List Char :=
  let opts := options.getD formatOptionsDefault
  let indent := compute_indent formatted.format opts
  let indented :=
    List.intercalate ['\n']
      ((rustLines body).map (fun line =>
        if line.isEmpty then line
        else List.replicate indent ' ' ++ line.dropWhile rustIsWhitespace))
  formatted.format.whitespace_start ++ indented ++ formatted.format.whitespace_end

/-- `stringify_json5` from src/json5.rs, with the output of the external
encoder `json5::to_string` passed in as `body`; the computed indent is
bound but unused (`_indent` in the source). -/
def stringify_json5 {T : Type} (formatted : Formatted T)
    (options : Option FormatOptions) (body : List Char) : List Char :=
  let opts := options.getD formatOptionsDefault
  let _indent := compute_indent formatted.format opts
  formatted.format.whitespace_start ++ body ++ formatted.format.whitespace_end

/-- `stringify_toml` from src/toml_format.rs, with the output of the
external encoder `toml::to_string` passed in as `body`; the options
argument is ignored (`_options` in the source). -/
def stringify_toml {T : Type} (formatted : Formatted T)
    (_options : Option FormatOptions) (body : List Char) : List Char :=
  formatted.format.whitespace_start ++ body ++ formatted.format.whitespace_end

/-- `stringify_yaml` from src/yaml_format.rs, with the output of the
external encoder `serde_yaml::to_string` passed in as `body`; the
options are bound but unused (`_opts` in the source). -/
def stringify_yaml {T : Type} (formatted : Formatted T)
    (options : Option FormatOptions) (body : List Char) : List Char :=
  let _opts := options.getD formatOptionsDefault
  formatted.format.whitespace_start ++ body ++ formatted.format.whitespace_end

/-- `parse_toml` from src/toml_format.rs, with the outcome of the
external decoder `toml::from_str` passed in as `decoded` (error type
`E` opaque): the options are defaulted, `preserve_indentation` is
forced to `false`, and on success the value is wrapped with the
descriptor detected under the forced options. -/
def parse_toml {T E : Type} (decoded : Except E T) (text : List Char)
    (options : Option FormatOptions) : Except E (Formatted T) :=
  let opts := options.getD formatOptionsDefault
  let opts := { opts with preserve_indentation := false }
  match decoded with
  | .error e => .error e
  | .ok value => .ok (Formatted.new text value opts)

/-- `parse_yaml` from src/yaml_format.rs: same shape as `parse_toml`,
with `serde_yaml::from_str` as the external decoder. -/
def parse_yaml {T E : Type} (decoded : Except E T) (text : List Char)
    (options : Option FormatOptions) : Except E (Formatted T) :=
  let opts := options.getD formatOptionsDefault
  let opts := { opts with preserve_indentation := false }
  match decoded with
  | .error e => .error e
  | .ok value => .ok (Formatted.new text value opts)

/-- `serde_json::Value` as far as this repository observes it (numbers
are collapsed to `Int`; the core never inspects values). -/
inductive JsonValue where
  | null
  | bool (b : Bool)
  | num (n : Int)
  | str (s : List Char)
  | arr (items : List JsonValue)
  | obj (fields : List ((List Char) × JsonValue))

/-- `parse_jsonc` from src/jsonc.rs, with the outcome of the external
parser `jsonc_parser::parse_to_serde_value` passed in as `parsed`
(error type `E` opaque).  The parser may succeed with no value
(`Ok(None)`, e.g. on empty or comment-only input); `unwrap_or(Null)`
substitutes JSON null in that case. -/
def parse_jsonc {E : Type} (parsed : Except E (Option JsonValue))
    (text : List Char) (fmt_options : Option FormatOptions) :
    Except E (Formatted JsonValue) :=
  let fmt_opts := fmt_options.getD formatOptionsDefault
  match parsed with
  | .error e => .error e
  | .ok value_opt => .ok (Formatted.new text (value_opt.getD JsonValue.null) fmt_opts)

/-- The per-line reindentation map of `stringify_json`, named so the
line-by-line behavior can be stated against it. -/
def reindentLines (body : List Char) (indent : Nat) : List (List Char) :=
  (rustLines body).map (fun line =>
    if line.isEmpty then line
    else List.replicate indent ' ' ++ line.dropWhile rustIsWhitespace)

/-- Modelled from the spec: `strip_outer_whitespace(t)` of the
whitespace round-trip property, "t with its outer whitespace removed"
(leading run dropped, then trailing run dropped). -/
def stripOuter (t : List Char) : List Char :=
  ((t.dropWhile rustIsWhitespace).reverse.dropWhile rustIsWhitespace).reverse

/-- Modelled from the spec: the indent-resolution scan exactly as the
claim words it — lines delimited by `'\n'` with no `'\r'` stripping,
lines that are empty after removing leading whitespace are skipped, and
the result is the "count of leading space/tab characters, each tab
counted as one unit" of the first line for which that count is
positive, else the default 2. -/
def claimedIndentLoop : List (List Char) → Nat
  | [] => 2
  | line :: rest =>
    let trimmed := line.dropWhile rustIsWhitespace
    if trimmed.isEmpty then claimedIndentLoop rest
    else
      let k := (line.takeWhile (fun c => c == ' ' || c == '\t')).length
      if 0 < k then k else claimedIndentLoop rest

/-- Modelled from the spec: `resolve_indent` on a present sample as the
claim describes it (see `claimedIndentLoop`). -/
def resolve_indent_claimed (sample : List Char) : Nat :=
  claimedIndentLoop (splitOnNl sample)

/-- A line qualifies for indent detection when it is non-empty after
trimming and its leading whitespace run has positive UTF-8 byte
length. -/
def lineQualifies (line : List Char) : Bool :=
  !(line.dropWhile rustIsWhitespace).isEmpty &&
    (utf8Len (line.takeWhile rustIsWhitespace) != 0)

/-! Helper lemmas. -/

/-- Appending to a block that already contains a predicate-falsifying
element does not change its `takeWhile`. -/
theorem takeWhile_append_of_exists (p : Char → Bool) :
    ∀ (xs ys : List Char), (∃ a ∈ xs, p a = false) →
      (xs ++ ys).takeWhile p = xs.takeWhile p := by
  intro xs
  induction xs with
  | nil =>
    intro ys h
    rcases h with ⟨a, ha, _⟩
    cases ha
  | cons x xs ih =>
    intro ys h
    by_cases hx : p x = true
    · rcases h with ⟨a, ha, hpa⟩
      rcases List.mem_cons.mp ha with rfl | ha2
      · rw [hx] at hpa
        cases hpa
      · simp only [List.cons_append, List.takeWhile_cons, hx, if_true]
        rw [ih ys ⟨a, ha2, hpa⟩]
    · simp [List.takeWhile_cons, hx]

/-- Dropping the leading whitespace run keeps every predicate-falsifying
element. -/
theorem exists_not_dropWhile (p : Char → Bool) :
    ∀ (l : List Char), (∃ a ∈ l, p a = false) →
      ∃ a ∈ l.dropWhile p, p a = false := by
  intro l
  induction l with
  | nil =>
    intro h
    rcases h with ⟨a, ha, _⟩
    cases ha
  | cons x xs ih =>
    intro h
    by_cases hx : p x = true
    · rw [List.dropWhile_cons_of_pos hx]
      apply ih
      rcases h with ⟨a, ha, hpa⟩
      rcases List.mem_cons.mp ha with rfl | ha2
      · rw [hx] at hpa
        cases hpa
      · exact ⟨a, ha2, hpa⟩
    · rw [List.dropWhile_cons_of_neg hx]
      exact ⟨x, List.mem_cons_self x xs, by simpa using hx⟩

/-- UTF-8 byte length distributes over append. -/
theorem utf8Len_append (a b : List Char) :
    utf8Len (a ++ b) = utf8Len a + utf8Len b := by
  simp [utf8Len]

/-- UTF-8 byte length of a text splits at the `takeWhile`/`dropWhile`
boundary. -/
theorem utf8Len_takeWhile_add_dropWhile (p : Char → Bool) (l : List Char) :
    utf8Len l = utf8Len (l.takeWhile p) + utf8Len (l.dropWhile p) := by
  rw [← utf8Len_append, List.takeWhile_append_dropWhile]

/-- `getD` with default `[]` commutes with a map that fixes `[]`. -/
theorem getD_map_nilFixed (f : List Char → List Char) (hf : f [] = [])
    (l : List (List Char)) : ∀ i, (l.map f).getD i [] = f (l.getD i []) := by
  induction l with
  | nil =>
    intro i
    simp [hf]
  | cons a l ih =>
    intro i
    cases i with
    | zero => simp
    | succ n => simpa using ih n

/-- A text containing a non-whitespace character is the concatenation of
its leading whitespace run, its outer-stripped middle, and its trailing
whitespace run. -/
theorem outer_split (p : Char → Bool) (t : List Char)
    (hne : ∃ c ∈ t, p c = false) :
    t.takeWhile p ++ ((t.dropWhile p).reverse.dropWhile p).reverse ++
      (t.reverse.takeWhile p).reverse = t := by
  have hmex : ∃ a ∈ (t.dropWhile p).reverse, p a = false := by
    rcases exists_not_dropWhile p t hne with ⟨a, ha, hpa⟩
    exact ⟨a, List.mem_reverse.mpr ha, hpa⟩
  have hrev : t.reverse = (t.dropWhile p).reverse ++ (t.takeWhile p).reverse := by
    conv_lhs => rw [← List.takeWhile_append_dropWhile (p := p) (l := t)]
    rw [List.reverse_append]
  have htw : t.reverse.takeWhile p = (t.dropWhile p).reverse.takeWhile p := by
    rw [hrev]
    exact takeWhile_append_of_exists p _ _ hmex
  rw [htw, List.append_assoc, ← List.reverse_append,
    List.takeWhile_append_dropWhile, List.reverse_reverse,
    List.takeWhile_append_dropWhile]

/-- `computeIndentLoop` returns the leading-whitespace UTF-8 byte length
of the first qualifying line, else the default 2. -/
theorem computeIndentLoop_eq_find (lines : List (List Char)) :
    computeIndentLoop lines =
      (lines.find? lineQualifies).elim 2
        (fun line => utf8Len (line.takeWhile rustIsWhitespace)) := by
  induction lines with
  | nil => rfl
  | cons line rest ih =>
    have hsplit := utf8Len_takeWhile_add_dropWhile rustIsWhitespace line
    by_cases h1 : (line.dropWhile rustIsWhitespace).isEmpty = true
    · have hq : lineQualifies line = false := by
        simp [lineQualifies, h1]
      simp [computeIndentLoop, h1, List.find?_cons, hq, ih]
    · by_cases h2 : utf8Len (line.takeWhile rustIsWhitespace) = 0
      · have hq : lineQualifies line = false := by
          simp [lineQualifies, h1, h2]
        have hz : utf8Len line - utf8Len (line.dropWhile rustIsWhitespace) = 0 := by
          omega
        simp [computeIndentLoop, h1, hz, List.find?_cons, hq, ih]
      · have hq : lineQualifies line = true := by
          simp [lineQualifies, h1, h2]
        have hv : utf8Len line - utf8Len (line.dropWhile rustIsWhitespace) =
            utf8Len (line.takeWhile rustIsWhitespace) := by
          omega
        simp [computeIndentLoop, h1, hv, List.find?_cons, hq,
          Nat.pos_of_ne_zero h2]

/-! Claim theorems. -/

/-- Claim C1, counterexample: for the all-whitespace text `"\n\n"` with
default options (whitespace preservation enabled), the captured leading
and trailing whitespace are each the whole text, so the claimed
identity `leading ++ stripped ++ trailing = t` fails (the left side is
`"\n\n\n\n"`). -/
theorem whitespace_roundtrip_counterexample :
    ¬ ((detect_format ['\n', '\n'] formatOptionsDefault).whitespace_start ++
        stripOuter ['\n', '\n'] ++
        (detect_format ['\n', '\n'] formatOptionsDefault).whitespace_end =
        ['\n', '\n']) := by
  decide

/-- Claim C1, amended: with whitespace preservation enabled, the
identity `leading_whitespace(t) ++ strip_outer_whitespace(t) ++
trailing_whitespace(t) = t` holds for every text `t` containing at
least one non-whitespace character; it does not extend to non-empty
texts consisting entirely of whitespace, where both captured fields
equal the whole text. -/
theorem whitespace_roundtrip_amended (t : List Char) (opts : FormatOptions)
    (hpw : opts.preserve_whitespace = true)
    (hne : ∃ c ∈ t, rustIsWhitespace c = false) :
    (detect_format t opts).whitespace_start ++ stripOuter t ++
      (detect_format t opts).whitespace_end = t := by
  have hws : (detect_format t opts).whitespace_start =
      t.takeWhile rustIsWhitespace := by
    simp [detect_format, hpw]
  have hwe : (detect_format t opts).whitespace_end =
      (t.reverse.takeWhile rustIsWhitespace).reverse := by
    simp [detect_format, hpw]
  rw [hws, hwe]
  exact outer_split rustIsWhitespace t hne

/-- Claim C1, witness: the amended round-trip at the concrete text
`" a\n"` under default options. -/
theorem whitespace_roundtrip_witness :
    (∃ c ∈ ([' ', 'a', '\n'] : List Char), rustIsWhitespace c = false) ∧
      (detect_format [' ', 'a', '\n'] formatOptionsDefault).whitespace_start ++
        stripOuter [' ', 'a', '\n'] ++
        (detect_format [' ', 'a', '\n'] formatOptionsDefault).whitespace_end =
        [' ', 'a', '\n'] :=
  ⟨by decide, whitespace_roundtrip_amended [' ', 'a', '\n'] formatOptionsDefault
    rfl (by decide)⟩

/-- Claim C2: the JSON stringify path wraps in the captured outer
whitespace a body transformed line by line — the output line list has
one line per encoder body line, a non-empty line is its own
leading-whitespace-trimmed text prefixed with exactly the resolved
indent width in spaces, and an empty line passes through unchanged. -/
theorem stringify_json_line_by_line (T : Type) (formatted : Formatted T)
    (options : Option FormatOptions) (body : List Char) :
    stringify_json formatted options body =
      formatted.format.whitespace_start ++
        List.intercalate ['\n']
          (reindentLines body
            (compute_indent formatted.format (options.getD formatOptionsDefault))) ++
        formatted.format.whitespace_end ∧
    (reindentLines body
        (compute_indent formatted.format (options.getD formatOptionsDefault))).length =
      (rustLines body).length ∧
    ∀ i,
      (reindentLines body
          (compute_indent formatted.format
            (options.getD formatOptionsDefault))).getD i [] =
        (if ((rustLines body).getD i []).isEmpty then (rustLines body).getD i []
         else
           List.replicate
              (compute_indent formatted.format (options.getD formatOptionsDefault))
              ' ' ++
            ((rustLines body).getD i []).dropWhile rustIsWhitespace) := by
  refine ⟨rfl, ?_, ?_⟩
  · simp [reindentLines]
  · intro i
    exact getD_map_nilFixed _ rfl (rustLines body) i

/-- Claim C3, counterexample: on the sample consisting of a vertical tab
(U+000B) followed by `x`, the code returns 1 (the UTF-8 byte length of
the leading Unicode-whitespace run), while the claimed rule — count of
leading space/tab characters only — finds no qualifying line and
returns the default 2. -/
theorem compute_indent_detection_counterexample :
    compute_indent (FormatInfo.mk (some [Char.ofNat 11, 'x']) [] [])
        formatOptionsDefault = 1 ∧
      resolve_indent_claimed [Char.ofNat 11, 'x'] = 2 ∧
      compute_indent (FormatInfo.mk (some [Char.ofNat 11, 'x']) [] [])
          formatOptionsDefault ≠
        resolve_indent_claimed [Char.ofNat 11, 'x'] := by
  decide

/-- Claim C3, amended: with `explicit_indent` absent and a sample
present, `compute_indent` returns the leading-whitespace length — the
UTF-8 byte length of the maximal leading run of Unicode-whitespace
characters, not a count of space/tab characters — of the first line
(in original order) that is non-empty after trimming and has a
positive such length, and the fixed default 2 when no line
qualifies. -/
theorem compute_indent_detection_amended (info : FormatInfo)
    (opts : FormatOptions) (sample : List Char)
    (h1 : opts.indent = none) (h2 : info.sample = some sample) :
    compute_indent info opts =
      ((rustLines sample).find? lineQualifies).elim 2
        (fun line => utf8Len (line.takeWhile rustIsWhitespace)) := by
  simp only [compute_indent, h1, h2]
  exact computeIndentLoop_eq_find (rustLines sample)

/-- Claim C3, witness: the amended detection rule at the concrete
sample `"\ta"` under default options. -/
theorem compute_indent_detection_witness :
    formatOptionsDefault.indent = none ∧
      (FormatInfo.mk (some ['\t', 'a']) [] []).sample = some ['\t', 'a'] ∧
      compute_indent (FormatInfo.mk (some ['\t', 'a']) [] [])
          formatOptionsDefault =
        ((rustLines ['\t', 'a']).find? lineQualifies).elim 2
          (fun line => utf8Len (line.takeWhile rustIsWhitespace)) :=
  ⟨rfl, rfl, compute_indent_detection_amended
    (FormatInfo.mk (some ['\t', 'a']) [] []) formatOptionsDefault
    ['\t', 'a'] rfl rfl⟩

/-- Claim C4: an explicit indent, including 0, unconditionally wins over
any detected value, for every descriptor. -/
theorem compute_indent_explicit_wins (info : FormatInfo)
    (opts : FormatOptions) (k : Nat) (h : opts.indent = some k) :
    compute_indent info opts = k := by
  simp [compute_indent, h]

/-- Claim C4, witness: explicit indent 0 wins over a sample that would
detect 2. -/
theorem compute_indent_explicit_wins_witness :
    (FormatOptions.mk (some 0) true true 1024).indent = some 0 ∧
      compute_indent (FormatInfo.mk (some [' ', ' ', 'a']) [] [])
        (FormatOptions.mk (some 0) true true 1024) = 0 :=
  ⟨rfl, compute_indent_explicit_wins
    (FormatInfo.mk (some [' ', ' ', 'a']) [] [])
    (FormatOptions.mk (some 0) true true 1024) 0 rfl⟩

/-- Claim C5: the detected descriptor has a sample present exactly when
indent auto-detection is enabled and the explicit indent is absent;
when present, the sample is the first `sample_size` characters of the
text, and for texts no longer than `sample_size` it is the whole
text. -/
theorem detect_format_sample_rule (text : List Char) (opts : FormatOptions) :
    ((detect_format text opts).sample ≠ none ↔
      opts.indent = none ∧ opts.preserve_indentation = true) ∧
    (∀ s, (detect_format text opts).sample = some s →
      s = text.take opts.sample_size) ∧
    (text.length ≤ opts.sample_size →
      ∀ s, (detect_format text opts).sample = some s → s = text) := by
  refine ⟨?_, ?_, ?_⟩
  · cases hi : opts.indent <;> cases hpi : opts.preserve_indentation <;>
      simp [detect_format, hi, hpi]
  · intro s hs
    cases hi : opts.indent with
    | some k => simp [detect_format, hi] at hs
    | none =>
      cases hpi : opts.preserve_indentation
      · simp [detect_format, hi, hpi] at hs
      · simp [detect_format, hi, hpi] at hs
        exact hs.symm
  · intro hlen s hs
    cases hi : opts.indent with
    | some k => simp [detect_format, hi] at hs
    | none =>
      cases hpi : opts.preserve_indentation
      · simp [detect_format, hi, hpi] at hs
      · simp [detect_format, hi, hpi] at hs
        rw [← hs, List.take_of_length_le hlen]

/-- Claim C5, witness: for the one-character text `"a"` under default
options the sample is present and equals the whole text. -/
theorem detect_format_sample_rule_witness :
    (['a'] : List Char).length ≤ formatOptionsDefault.sample_size ∧
      (detect_format ['a'] formatOptionsDefault).sample = some ['a'] ∧
      (['a'] : List Char) = ['a'] :=
  ⟨by decide, by decide,
    (detect_format_sample_rule ['a'] formatOptionsDefault).2.2 (by decide)
      ['a'] (by decide)⟩

/-- Claim C6: with `preserve_whitespace = false` both whitespace fields
of the descriptor are empty, for every text. -/
theorem detect_format_whitespace_disabled (text : List Char)
    (opts : FormatOptions) (h : opts.preserve_whitespace = false) :
    (detect_format text opts).whitespace_start = [] ∧
      (detect_format text opts).whitespace_end = [] := by
  simp [detect_format, h]

/-- Claim C6, witness: whitespace capture disabled on the text
`" a "`. -/
theorem detect_format_whitespace_disabled_witness :
    (FormatOptions.mk none true false 1024).preserve_whitespace = false ∧
      (detect_format [' ', 'a', ' ']
          (FormatOptions.mk none true false 1024)).whitespace_start = [] ∧
      (detect_format [' ', 'a', ' ']
          (FormatOptions.mk none true false 1024)).whitespace_end = [] :=
  ⟨rfl,
    detect_format_whitespace_disabled [' ', 'a', ' ']
      (FormatOptions.mk none true false 1024) rfl⟩

/-- Claim C7: for a non-empty text consisting entirely of whitespace,
with whitespace preservation enabled, both whitespace fields equal the
whole text. -/
theorem detect_format_whole_whitespace (t : List Char)
    (opts : FormatOptions) (hpw : opts.preserve_whitespace = true)
    (_hne : t ≠ []) (hall : ∀ c ∈ t, rustIsWhitespace c = true) :
    (detect_format t opts).whitespace_start = t ∧
      (detect_format t opts).whitespace_end = t := by
  constructor
  · simp [detect_format, hpw, List.takeWhile_eq_self_iff.mpr hall]
  · have hrev : t.reverse.takeWhile rustIsWhitespace = t.reverse :=
      List.takeWhile_eq_self_iff.mpr
        (fun c hc => hall c (List.mem_reverse.mp hc))
    simp [detect_format, hpw, hrev]

/-- Claim C7, witness: the whole-whitespace rule at the concrete text
`"\n\n"` under default options. -/
theorem detect_format_whole_whitespace_witness :
    (['\n', '\n'] : List Char) ≠ [] ∧
      (detect_format ['\n', '\n'] formatOptionsDefault).whitespace_start =
        ['\n', '\n'] ∧
      (detect_format ['\n', '\n'] formatOptionsDefault).whitespace_end =
        ['\n', '\n'] :=
  ⟨by decide,
    detect_format_whole_whitespace ['\n', '\n'] formatOptionsDefault rfl
      (by decide) (by decide)⟩

/-- Claim C8: every stringify operation returns
`leading_whitespace ++ body ++ trailing_whitespace`; for the
non-reindent-capable formats (JSON5, TOML, YAML) the body is the
encoder's native output verbatim, while for JSON it is the reindented
body — the outer concatenation is unconditional either way. -/
theorem stringify_outer_concatenation (T : Type) (formatted : Formatted T)
    (options : Option FormatOptions) (body : List Char) :
    stringify_json5 formatted options body =
        formatted.format.whitespace_start ++ body ++
          formatted.format.whitespace_end ∧
      stringify_toml formatted options body =
        formatted.format.whitespace_start ++ body ++
          formatted.format.whitespace_end ∧
      stringify_yaml formatted options body =
        formatted.format.whitespace_start ++ body ++
          formatted.format.whitespace_end ∧
      stringify_json formatted options body =
        formatted.format.whitespace_start ++
          List.intercalate ['\n']
            (reindentLines body
              (compute_indent formatted.format
                (options.getD formatOptionsDefault))) ++
          formatted.format.whitespace_end :=
  ⟨rfl, rfl, rfl, rfl⟩

/-- Claim C9: `parse_toml` and `parse_yaml` force
`preserve_indentation` to `false` before detection, so for every text
and every caller-supplied options value the stored descriptor has no
sample and any later indent resolution yields the explicit indent or
the default 2. -/
theorem parse_toml_yaml_force_no_sample (T : Type) (v : T)
    (text : List Char) (options : Option FormatOptions) :
    (∃ fmt : FormatInfo,
        parse_toml (E := Unit) (Except.ok v) text options =
            Except.ok (Formatted.mk v fmt) ∧
          fmt.sample = none ∧
          ∀ o : FormatOptions, compute_indent fmt o = o.indent.getD 2) ∧
      (∃ fmt : FormatInfo,
        parse_yaml (E := Unit) (Except.ok v) text options =
            Except.ok (Formatted.mk v fmt) ∧
          fmt.sample = none ∧
          ∀ o : FormatOptions, compute_indent fmt o = o.indent.getD 2) := by
  constructor <;>
  · refine ⟨detect_format text
        { options.getD formatOptionsDefault with preserve_indentation := false },
      rfl, ?_, ?_⟩
    · simp [detect_format]
    · intro o
      have hs : (detect_format text
          { options.getD formatOptionsDefault with
              preserve_indentation := false }).sample = none := by
        simp [detect_format]
      cases ho : o.indent <;> simp [compute_indent, ho, hs]

/-- Claim C10: when the external JSONC parser accepts the input but
yields no value (empty or comment-only text), `parse_jsonc` succeeds
and substitutes JSON null as the value. -/
theorem parse_jsonc_empty_ok (E : Type) (text : List Char)
    (fmt_options : Option FormatOptions) :
    parse_jsonc (E := E) (Except.ok none) text fmt_options =
      Except.ok
        (Formatted.mk JsonValue.null
          (detect_format text (fmt_options.getD formatOptionsDefault))) :=
  rfl

end C12
